import Mathlib

/-!
Shallow embedding of the MITRE ATT&CK analysis / visualization-layer engine
(`blog3_analyzing_mitre_data/analyzer.py`, the converged four-dimension
version of the engine; `analyzer.py` at the repository root is the earlier
two-dimension snapshot and is referenced where a claim cites it).

Conventions of the embedding:
* Python numbers are modelled by `Nat` / `Int` / `Rat`.  The float arithmetic
  of the source (quartiles, means, HSV interpolation, `0.9 * max`) is carried
  out in exact rational arithmetic; all interpolations of the source divide
  small integers, where IEEE double arithmetic is exact, except for the
  literal `0.9`, which is modelled as the rational 9/10.  No claim below
  depends on the value produced by that term, only on it being some integer
  after rounding.
* Python exceptions are modelled with `Except PyErr`; a function that cannot
  raise is pure.
* Python dicts whose keys are decimal strings or the string "more" are
  modelled as association lists over `ThKey` in insertion order.
-/

namespace Mitre

/-- Exception kinds raised by the analyzer code paths that we model. -/
inductive PyErr where
  | valueError
  | zeroDivisionError
  | keyError
  | indexError
  deriving DecidableEq, Repr

/-- Python `round` on an exact rational: round half to even. -/
def pyRound (q : ℚ) : ℤ :=
  let f := ⌊q⌋
  let r := q - f
  if r < 1/2 then f
  else if 1/2 < r then f + 1
  else if f % 2 = 0 then f else f + 1

/-- Python `x % 1.0` for a real-valued `x`: the fractional part in `[0, 1)`. -/
def pyMod1 (q : ℚ) : ℚ := q - ⌊q⌋

/-- Python `int()` on a real value: truncation toward zero. -/
def pyInt (q : ℚ) : ℤ := if 0 ≤ q then ⌊q⌋ else -⌊-q⌋

/-- Value of one hexadecimal digit character, `none` for anything else. -/
def hexDigitVal (c : Char) : Option ℕ :=
  if '0' ≤ c ∧ c ≤ '9' then some (c.toNat - '0'.toNat)
  else if 'a' ≤ c ∧ c ≤ 'f' then some (c.toNat - 'a'.toNat + 10)
  else if 'A' ≤ c ∧ c ≤ 'F' then some (c.toNat - 'A'.toNat + 10)
  else none

/-- Python `int(s, 16)` restricted to plain digit strings: parses a non-empty
string of hex digits, `none` (a `ValueError` at the call sites) otherwise. -/
def pyIntHex (cs : List Char) : Option ℕ :=
  match cs with
  | [] => none
  | _ =>
    cs.foldl (fun acc c =>
      match acc, hexDigitVal c with
      | some a, some d => some (a * 16 + d)
      | _, _ => none) (some 0)

/-- `colorsys.rgb_to_hsv` in exact rational arithmetic. -/
def rgb_to_hsv (r g b : ℚ) : ℚ × ℚ × ℚ :=
  let maxc := max r (max g b)
  let minc := min r (min g b)
  let rangec := maxc - minc
  let v := maxc
  if minc = maxc then (0, 0, v)
  else
    let s := rangec / maxc
    let rc := (maxc - r) / rangec
    let gc := (maxc - g) / rangec
    let bc := (maxc - b) / rangec
    let h := if r = maxc then bc - gc
             else if g = maxc then 2 + rc - bc
             else 4 + gc - rc
    (pyMod1 (h / 6), s, v)

/-- `colorsys.hsv_to_rgb` in exact rational arithmetic. -/
def hsv_to_rgb (h s v : ℚ) : ℚ × ℚ × ℚ :=
  if s = 0 then (v, v, v)
  else
    let i0 := pyInt (h * 6)
    let f := h * 6 - (i0 : ℚ)
    let p := v * (1 - s)
    let q := v * (1 - s * f)
    let t := v * (1 - s * (1 - f))
    let i := i0 % 6
    if i = 0 then (v, t, p)
    else if i = 1 then (q, v, p)
    else if i = 2 then (p, v, t)
    else if i = 3 then (p, q, v)
    else if i = 4 then (t, p, v)
    else (v, p, q)

/-- Python `"{:02x}".format n` for the non-negative channel values produced
by the gradient code (zero-padded to width 2, lowercase). -/
def format02x (n : ℤ) : String :=
  if n < 0 then "-" ++ String.mk (Nat.toDigits 16 (-n).toNat)
  else
    let ds := Nat.toDigits 16 n.toNat
    if ds.length < 2 then String.mk ('0' :: ds) else String.mk ds

/-- `hex_to_hsv` inner helper of `generate_color_gradient`: strip leading
`'#'`, parse the three 2-character slices, convert to HSV. -/
def hex_to_hsv (hex_color : String) : Except PyErr (ℚ × ℚ × ℚ) :=
  let cs := hex_color.toList.dropWhile (· = '#')
  match pyIntHex ((cs.drop 0).take 2), pyIntHex ((cs.drop 2).take 2),
        pyIntHex ((cs.drop 4).take 2) with
  | some r, some g, some b =>
    .ok (rgb_to_hsv ((r : ℚ) / 255) ((g : ℚ) / 255) ((b : ℚ) / 255))
  | _, _, _ => .error .valueError

/-- `hsv_to_hex` inner helper of `generate_color_gradient`. -/
def hsv_to_hex (hsv : ℚ × ℚ × ℚ) : String :=
  let rgb := hsv_to_rgb hsv.1 hsv.2.1 hsv.2.2
  "#" ++ format02x (pyInt (rgb.1 * 255)) ++ format02x (pyInt (rgb.2.1 * 255))
      ++ format02x (pyInt (rgb.2.2 * 255))

/-- Componentwise linear interpolation of two HSV triples
(`start + (end - start) * ratio` in the source's loop body). -/
def hsvLerp (s e : ℚ × ℚ × ℚ) (ratio : ℚ) : ℚ × ℚ × ℚ :=
  (s.1 + (e.1 - s.1) * ratio,
   s.2.1 + (e.2.1 - s.2.1) * ratio,
   s.2.2 + (e.2.2 - s.2.2) * ratio)

/-- `generate_color_gradient`: the loop runs `steps` times with
`ratio = i / (steps - 1)`; with `steps == 1` its first iteration divides
zero by zero (`ZeroDivisionError`), with `steps == 0` it never runs. -/
def generate_color_gradient (start_hex end_hex : String) (steps : ℕ) :
    Except PyErr (List String) := do
  let start_hsv ← hex_to_hsv start_hex
  let end_hsv ← hex_to_hsv end_hex
  if steps = 0 then
    return []
  else if steps = 1 then
    throw .zeroDivisionError
  else
    return (List.range steps).map (fun (i : ℕ) =>
      hsv_to_hex (hsvLerp start_hsv end_hsv ((i : ℚ) / ((steps : ℚ) - 1))))

/-- A hex color string the gradient generator accepts without `ValueError`. -/
def validHex (s : String) : Bool :=
  match hex_to_hsv s with
  | .ok _ => true
  | .error _ => false

/-! ## Data model -/

/-- A relationship record: only its `relationship_type` tag is read
(`rel.get('relationship_type')`, so the key may be absent). -/
structure Relationship where
  relationship_type : Option String
  deriving DecidableEq, Repr

/-- An input technique record.  `technique_id` may be absent (the code guards
every direct access); `name`, per the input contract, is always present.
`groups`, `mitigations` and `external_references` are only measured by
`len(...)`, so their elements are kept as opaque strings. -/
structure Technique where
  technique_id : Option String
  name : String
  groups : List String
  mitigations : List String
  related_relationships : List Relationship
  external_references : List String
  deriving DecidableEq, Repr

/-- The `stats` sub-record written by the aggregator.  Each field is optional
because downstream readers access the keys with `.get(f'{count_type}_count', 0)`
(techniques annotated by the older two-dimension aggregator lack the last two
keys). -/
structure Stats where
  groups_count : Option ℕ
  mitigations_count : Option ℕ
  relationships_count : Option ℕ
  referenced_count : Option ℕ
  deriving DecidableEq, Repr

/-- A technique after the aggregation pass: the fields the layer builder
reads, plus the attached `stats`. -/
structure AnnTechnique where
  technique_id : Option String
  name : String
  related_relationships : List Relationship
  stats : Stats
  deriving DecidableEq, Repr

/-- The per-technique annotation loop of `analyze_and_update_techniques`
(lines 23-33): filter `related_relationships` whose type is `'mitigates'`,
then write all four counts. -/
def annotate (t : Technique) : AnnTechnique :=
  let related_rels := t.related_relationships.filter
    (fun rel => rel.relationship_type != some "mitigates")
  { technique_id := t.technique_id
    name := t.name
    related_relationships := t.related_relationships
    stats :=
      { groups_count := some t.groups.length
        mitigations_count := some t.mitigations.length
        relationships_count := some related_rels.length
        referenced_count := some t.external_references.length } }

/-- `stats.get(f'{count_type}_count', 0)`: the `stats` dict only ever holds
the four keys below, so any other `count_type` misses and defaults to 0. -/
def statsGet (s : Stats) (count_type : String) : ℕ :=
  if count_type = "groups" then s.groups_count.getD 0
  else if count_type = "mitigations" then s.mitigations_count.getD 0
  else if count_type = "relationships" then s.relationships_count.getD 0
  else if count_type = "references" then s.referenced_count.getD 0
  else 0

/-! ## Statistics aggregator -/

/-- The four key functions `lambda t: t['stats'][f'{dim}_count']` used by the
aggregator on techniques it has just annotated (all four keys present, so the
`getD 0` default never fires there). -/
def kGroups (t : AnnTechnique) : ℕ := t.stats.groups_count.getD 0

/-- See `kGroups`. -/
def kMitigations (t : AnnTechnique) : ℕ := t.stats.mitigations_count.getD 0

/-- See `kGroups`. -/
def kRelationships (t : AnnTechnique) : ℕ := t.stats.relationships_count.getD 0

/-- See `kGroups`. -/
def kReferences (t : AnnTechnique) : ℕ := t.stats.referenced_count.getD 0

/-- One step of the stable descending insertion used to model Python's
stable `sorted(..., reverse=True)`: a new element goes after every already
placed element with a key `≥` its own. -/
def insertDesc (key : AnnTechnique → ℕ) (x : AnnTechnique) :
    List AnnTechnique → List AnnTechnique
  | [] => [x]
  | y :: ys => if key y < key x then x :: y :: ys else y :: insertDesc key x ys

/-- Python `sorted(techniques, key=..., reverse=True)` (stable descending). -/
def pySortedDesc (key : AnnTechnique → ℕ) (ts : List AnnTechnique) :
    List AnnTechnique :=
  ts.foldl (fun acc x => insertDesc key x acc) []

/-- `get_top_5` helper of the aggregator. -/
def get_top_5 (techniques : List AnnTechnique) (key : AnnTechnique → ℕ) :
    List AnnTechnique :=
  (pySortedDesc key techniques).take 5

/-- Python `max(techniques, key=...)`: first maximal element, `ValueError`
on an empty sequence. -/
def pyMax (key : AnnTechnique → ℕ) (ts : List AnnTechnique) :
    Except PyErr AnnTechnique :=
  match ts with
  | [] => .error .valueError
  | t :: rest => .ok (rest.foldl (fun m x => if key m < key x then x else m) t)

/-- An `{'id': ..., 'name': ..., 'count': ...}` record of the summary.  -/
structure TechRef where
  id : String
  name : String
  count : ℕ
  deriving DecidableEq, Repr

/-- Building a `TechRef` reads `t['technique_id']` directly: a `KeyError`
when the key is absent. -/
def techRef (t : AnnTechnique) (count : ℕ) : Except PyErr TechRef :=
  match t.technique_id with
  | some i => .ok ⟨i, t.name, count⟩
  | none => .error .keyError

/-- A list comprehension whose body may raise: evaluate left to right,
propagating the first error. -/
def mapExcept (f : AnnTechnique → Except PyErr TechRef) :
    List AnnTechnique → Except PyErr (List TechRef)
  | [] => .ok []
  | x :: xs =>
    match f x with
    | .error e => .error e
    | .ok r =>
      match mapExcept f xs with
      | .error e => .error e
      | .ok rs => .ok (r :: rs)

/-- Top-5 ranking for one dimension, as `TechRef` records. -/
def top5Refs (techniques : List AnnTechnique) (key : AnnTechnique → ℕ) :
    Except PyErr (List TechRef) :=
  mapExcept (fun t => techRef t (key t)) (get_top_5 techniques key)

/-- `safe_average` of the two-dimension analyzer (`analyzer.py`, lines
61-65): the `try/except (TypeError, ValueError)` around the division cannot
fire for integer-valued inputs, leaving the zero-denominator guard. -/
def safe_average (values : List ℚ) (total : ℕ) : ℚ :=
  if 0 < total then values.sum / (total : ℚ) else 0

/-- The `overall_stats` summary record of the four-dimension aggregator. -/
structure OverallStats where
  all_techniques : ℕ
  total_used_techniques : ℕ
  total_groups : ℕ
  total_mitigations : ℕ
  total_relationships : ℕ
  total_references : ℕ
  avg_groups_per_technique : ℚ
  avg_mitigations_per_technique : ℚ
  avg_relationships_per_technique : ℚ
  avg_references_per_technique : ℚ
  most_targeted_technique : TechRef
  most_mitigated_technique : TechRef
  most_related_technique : TechRef
  most_referenced_technique : TechRef
  top_5_by_groups : List TechRef
  top_5_by_mitigations : List TechRef
  top_5_by_relationships : List TechRef
  top_5_by_references : List TechRef
  deriving DecidableEq, Repr

/-- Lines 36-123 of `analyze_and_update_techniques`: the summary built from
the already annotated techniques.  Failure points, in source order: the
top-5 comprehensions and the `most_*` entries read `t['technique_id']`
(`KeyError` when absent), and `max()` raises `ValueError` on an empty
sequence.  Each average is guarded by `if total_techniques > 0 else 0`. -/
def buildOverallStats (ann : List AnnTechnique)
    (all_techniques_length total_techniques : ℕ) : Except PyErr OverallStats := do
  let top_5_groups ← top5Refs ann kGroups
  let top_5_mitigations ← top5Refs ann kMitigations
  let top_5_relationships ← top5Refs ann kRelationships
  let top_5_references ← top5Refs ann kReferences
  let max_groups_technique ← pyMax kGroups ann
  let max_mitigations_technique ← pyMax kMitigations ann
  let max_relationships_technique ← pyMax kRelationships ann
  let max_referenced_technique ← pyMax kReferences ann
  let most_targeted ← techRef max_groups_technique (kGroups max_groups_technique)
  let most_mitigated ← techRef max_mitigations_technique
    (kMitigations max_mitigations_technique)
  let most_related ← techRef max_relationships_technique
    (kRelationships max_relationships_technique)
  let most_referenced ← techRef max_referenced_technique
    (kReferences max_referenced_technique)
  return {
      all_techniques := all_techniques_length
      total_used_techniques := total_techniques
      total_groups := (ann.map kGroups).sum
      total_mitigations := (ann.map kMitigations).sum
      total_relationships := (ann.map kRelationships).sum
      total_references := (ann.map kReferences).sum
      avg_groups_per_technique :=
        if 0 < total_techniques then ((ann.map kGroups).sum : ℚ) / total_techniques else 0
      avg_mitigations_per_technique :=
        if 0 < total_techniques then ((ann.map kMitigations).sum : ℚ) / total_techniques else 0
      avg_relationships_per_technique :=
        if 0 < total_techniques then ((ann.map kRelationships).sum : ℚ) / total_techniques else 0
      avg_references_per_technique :=
        if 0 < total_techniques then ((ann.map kReferences).sum : ℚ) / total_techniques else 0
      most_targeted_technique := most_targeted
      most_mitigated_technique := most_mitigated
      most_related_technique := most_related
      most_referenced_technique := most_referenced
      top_5_by_groups := top_5_groups
      top_5_by_mitigations := top_5_mitigations
      top_5_by_relationships := top_5_relationships
      top_5_by_references := top_5_references }

/-- `analyze_and_update_techniques`: annotate every technique (the in-place
mutation loop, modelled as a map), then build the summary, and return both. -/
def analyze_and_update_techniques (techniques : List Technique)
    (all_techniques_length : ℕ) :
    Except PyErr (OverallStats × List AnnTechnique) :=
  let ann := techniques.map annotate
  match buildOverallStats ann all_techniques_length techniques.length with
  | .ok st => .ok (st, ann)
  | .error e => .error e

/-! ## Color threshold maps

The color dicts of the source have keys that are decimal strings of the
integer breakpoints plus the catch-all string `"more"`; they are modelled as
association lists over `ThKey` in insertion order. -/

/-- A key of a color threshold dict. -/
inductive ThKey where
  | num (n : ℤ)
  | more
  deriving DecidableEq, Repr

/-- A color threshold dict in insertion order. -/
abbrev ColorMap := List (ThKey × String)

/-- The effective `default_color_scheme` (the red gradient): the file defines
the function twice and the second definition (lines 266-280) shadows the
first blue-gradient one. -/
def default_color_scheme : ColorMap :=
  [(.num 0, "#ffffff"), (.num 1, "#ff6666"), (.num 2, "#f94444"),
   (.num 4, "#e41b1b"), (.num 6, "#f10000"), (.num 11, "#950000"),
   (.more, "#2b0000")]

/-- Ascending insertion into a sorted list of rationals. -/
def insertAscQ (x : ℚ) : List ℚ → List ℚ
  | [] => [x]
  | y :: ys => if x ≤ y then x :: y :: ys else y :: insertAscQ x ys

/-- Python `sorted` on a list of rationals. -/
def sortAscQ (l : List ℚ) : List ℚ :=
  l.foldl (fun acc x => insertAscQ x acc) []

/-- Element of a rational list at a clamped integer position (all call sites
index within bounds). -/
def qget (d : List ℚ) (i : ℤ) : ℚ := d.getD i.toNat 0

/-- `statistics.quantiles(data, n=4)` with the default exclusive method
(CPython's integer-exact formulation): sort, require at least two data
points (`StatisticsError` otherwise, here `none`), then for i = 1, 2, 3 cut
at `j = clamp(i*(ld+1) // 4, 1, ld-1)`, `delta = i*(ld+1) - 4*j`,
interpolating `(data[j-1]*(4-delta) + data[j]*delta) / 4`. -/
def quantiles4 (data : List ℚ) : Option (ℚ × ℚ × ℚ) :=
  let d := sortAscQ data
  let ld := d.length
  if ld < 2 then none
  else
    let m : ℤ := (ld : ℤ) + 1
    let cut := fun (i : ℤ) =>
      let j0 := i * m / 4
      let j : ℤ := if j0 < 1 then 1 else if (ld : ℤ) - 1 < j0 then (ld : ℤ) - 1 else j0
      let delta : ℚ := ((i * m - j * 4 : ℤ) : ℚ)
      (qget d (j - 1) * (4 - delta) + qget d j * delta) / 4
    some (cut 1, cut 2, cut 3)

/-- `statistics.mean`: the exact arithmetic mean, `none` (an error) on an
empty list. -/
def pyMean (data : List ℚ) : Option ℚ :=
  if data.length = 0 then none else some (data.sum / (data.length : ℚ))

/-- Python `sorted(list(set(l)))` for integers. -/
def sortedSetInt (l : List ℤ) : List ℤ :=
  l.toFinset.sort (· ≤ ·)

/-- Python `max(counts)` for the non-empty list of counts (the empty case is
guarded just above the call in the source). -/
def pyMaxNat (l : List ℕ) : ℕ :=
  match l with
  | [] => 0
  | c :: rest => rest.foldl max c

/-- The recognized count dimensions (`valid_count_types`, line 206). -/
def valid_count_types : List String :=
  ["groups", "mitigations", "relationships", "references"]

/-- Line 212: `[tech['stats'].get(f'{count_type}_count', 0) for tech in techniques]`. -/
def countsOf (techniques : List AnnTechnique) (count_type : String) : List ℕ :=
  techniques.map (fun t => statsGet t.stats count_type)

/-- `calculate_color_thresholds` (lines 195-248).  Unrecognized dimension,
empty count list, zero maximum, or a quartile/mean computation failure all
return the default scheme; otherwise the six candidate breakpoints are
deduplicated and sorted, `len+1` gradient colors are generated from white to
deep blue, breakpoints are zipped to colors, and `"more"` gets `colors[-1]`. -/
def calculate_color_thresholds (techniques : List AnnTechnique)
    (count_type : String) : Except PyErr ColorMap :=
  if count_type ∉ valid_count_types then .ok default_color_scheme
  else
    let counts := countsOf techniques count_type
    if counts = [] then .ok default_color_scheme
    else
      let max_count := pyMaxNat counts
      if max_count = 0 then .ok default_color_scheme
      else
        let qdata := counts.map (fun (n : ℕ) => (n : ℚ))
        match quantiles4 qdata, pyMean qdata with
        | some (q1, _q2, q3), some mn =>
          let thresholds : List ℤ := sortedSetInt
            [0, pyRound q1, pyRound mn, pyRound q3,
             pyRound ((max_count : ℚ) * (9 / 10)), (max_count : ℤ)]
          match generate_color_gradient "#ffffff" "#000066" (thresholds.length + 1) with
          | .error e => .error e
          | .ok colors =>
            match colors.getLast? with
            | none => .error .indexError
            | some last =>
              .ok ((thresholds.zip colors).map (fun p => (ThKey.num p.1, p.2))
                   ++ [(ThKey.more, last)])
        | _, _ => .ok default_color_scheme

/-- The integer breakpoint keys of a color map, in dict (insertion) order. -/
def mapNumKeys (colors : ColorMap) : List ℤ :=
  colors.filterMap (fun p =>
    match p.1 with
    | .num n => some n
    | .more => none)

/-- Line 138: `sorted(int(key) for key in colors if key.isdigit())`.  The
decimal string of an integer consists of digits exactly when the integer is
non-negative, so negative breakpoints are invisible to this scan. -/
def numericKeys (colors : ColorMap) : List ℤ :=
  colors.filterMap (fun p =>
    match p.1 with
    | .num n => if 0 ≤ n then some n else none
    | .more => none)

/-- Ascending insertion into a sorted list of integers. -/
def insertAscZ (x : ℤ) : List ℤ → List ℤ
  | [] => [x]
  | y :: ys => if x ≤ y then x :: y :: ys else y :: insertAscZ x ys

/-- Python `sorted` on a list of integers. -/
def sortAscZ (l : List ℤ) : List ℤ :=
  l.foldl (fun acc x => insertAscZ x acc) []

/-- The selection loop of `find_color_for_count` (lines 140-145): walk the
sorted keys keeping the last one `≤ count`, stopping at the first larger
key. -/
def scanSel : List ℤ → ℤ → Option ℤ → Option ℤ
  | [], _, acc => acc
  | k :: ks, count, acc => if k ≤ count then scanSel ks count (some k) else acc

/-- The key `find_color_for_count` resolves `count` to: the selected numeric
key, or `"more"` when nothing was selected or `count` exceeds `max(keys)`
(the `or` short-circuits, so `max` is only taken on a non-empty list). -/
def selThKey (colors : ColorMap) (count : ℤ) : ThKey :=
  let keys := sortAscZ (numericKeys colors)
  match scanSel keys count none with
  | none => .more
  | some k =>
    match keys.getLast? with
    | none => .more
    | some mx => if mx < count then .more else .num k

/-- Dict lookup `colors[str(selected_key)]['color']`. -/
def lookupColor (colors : ColorMap) (k : ThKey) : Option String :=
  (colors.find? (fun p => p.1 == k)).map Prod.snd

/-- `find_color_for_count` (lines 128-150): resolve the key, then index the
dict (`KeyError` if the key is missing). -/
def find_color_for_count (colors : ColorMap) (count : ℤ) : Except PyErr String :=
  match lookupColor colors (selThKey colors count) with
  | some c => .ok c
  | none => .error .keyError

/-! ## Heat-map layer builder -/

/-- One entry of the layer's `techniques` array. -/
structure LayerEntry where
  techniqueID : String
  color : String
  comment : String
  showSubtechniques : Bool
  enabled : Bool
  deriving DecidableEq, Repr

/-- One entry of the layer's legend. -/
structure LegendItem where
  label : String
  color : String
  deriving DecidableEq, Repr

/-- The complete Navigator layer document (`result_data`), with the nested
`versions`, `gradient` and `layout` dicts flattened into fields. -/
structure NavigatorLayer where
  description : String
  name : String
  domain : String
  attackVersion : String
  navigatorVersion : String
  layerVersion : String
  gradientColors : List String
  gradientMinValue : ℕ
  gradientMaxValue : ℕ
  legendItems : List LegendItem
  techniques : List LayerEntry
  showTacticRowBackground : Bool
  tacticRowBackground : String
  selectTechniquesAcrossTactics : Bool
  selectSubtechniquesWithParent : Bool
  selectVisibleTechniques : Bool
  layoutLayout : String
  layoutShowName : Bool
  layoutShowID : Bool
  layoutExpandedSubtechniques : Bool
  hideDisabled : Bool
  deriving DecidableEq, Repr

/-- `rel_types[rel_type] = rel_types.get(rel_type, 0) + 1` on a dict in
insertion order: bump an existing key in place or append a new one. -/
def bumpAssoc : List (String × ℕ) → String → List (String × ℕ)
  | [], key => [(key, 1)]
  | (k, v) :: rest, key =>
    if k = key then (k, v + 1) :: rest else (k, v) :: bumpAssoc rest key

/-- The relationship-type distribution of the comment (lines 341-345). -/
def relTypeCounts (rels : List Relationship) : List (String × ℕ) :=
  rels.foldl (fun acc rel =>
    if rel.relationship_type != some "mitigates" then
      bumpAssoc acc (rel.relationship_type.getD "unknown")
    else acc) []

/-- The comment string of a technique entry (lines 337-351). -/
def mkComment (count_type : String) (count : ℕ) (t : AnnTechnique) : String :=
  let base := toString count ++ " " ++ count_type
  if count_type = "relationships" then
    let rel_types := relTypeCounts t.related_relationships
    if rel_types = [] then base
    else
      base ++ " (" ++
        String.intercalate ", "
          (rel_types.map (fun p => p.1 ++ ": " ++ toString p.2)) ++ ")"
  else base

/-- The technique loop of `create_navigator_layer` (lines 329-362): skip a
technique whose `technique_id` is absent or falsy, otherwise read its count
(defaulting to 0), build the comment, resolve the color and append an entry
with `enabled = not hide_uncovered or count > 0`. -/
def buildEntries (colors : ColorMap) (count_type : String) (hide_uncovered : Bool) :
    List AnnTechnique → Except PyErr (List LayerEntry)
  | [] => .ok []
  | t :: rest =>
    if t.technique_id.getD "" = "" then
      buildEntries colors count_type hide_uncovered rest
    else
      let count := statsGet t.stats count_type
      let comment := mkComment count_type count t
      match find_color_for_count colors (count : ℤ) with
      | .error e => .error e
      | .ok color =>
        match buildEntries colors count_type hide_uncovered rest with
        | .error e => .error e
        | .ok restEntries =>
          .ok ({ techniqueID := t.technique_id.getD ""
                 color := color
                 comment := comment
                 showSubtechniques := true
                 enabled := !hide_uncovered || decide (0 < count) } :: restEntries)

/-- The legend label: `"More"` for the catch-all key, else the stringified
breakpoint. -/
def labelOf : ThKey → String
  | .num n => toString n
  | .more => "More"

/-- `create_navigator_layer` (lines 282-373). -/
def create_navigator_layer (techniques : List AnnTechnique) (layer_name : String)
    (count_type : String) (hide_uncovered : Bool := true) :
    Except PyErr NavigatorLayer := do
  let colors ← calculate_color_thresholds techniques count_type
  let entries ← buildEntries colors count_type hide_uncovered techniques
  return {
      description := "Enterprise techniques heat map showing " ++ count_type ++ " count"
      name := layer_name
      domain := "enterprise-attack"
      attackVersion := "16"
      navigatorVersion := "5.0.0"
      layerVersion := "4.5"
      gradientColors := colors.map Prod.snd
      gradientMinValue := 0
      gradientMaxValue := 1
      legendItems := colors.map (fun p => ⟨labelOf p.1, p.2⟩)
      techniques := entries
      showTacticRowBackground := true
      tacticRowBackground := "#dddddd"
      selectTechniquesAcrossTactics := true
      selectSubtechniquesWithParent := true
      selectVisibleTechniques := false
      layoutLayout := "flat"
      layoutShowName := true
      layoutShowID := false
      layoutExpandedSubtechniques := true
      hideDisabled := true }

/-! ## Supporting lemmas -/

/-- A fold of `max` over an all-zero list of naturals stays zero. -/
theorem foldl_max_all_zero : ∀ (l : List ℕ), (∀ c ∈ l, c = 0) →
    ∀ a, a = 0 → l.foldl max a = 0 := by
  intro l
  induction l with
  | nil => intro _ a ha; simpa using ha
  | cons c rest ih =>
    intro h a ha
    have hc : c = 0 := h c (by simp)
    have hrest : ∀ x ∈ rest, x = 0 := fun x hx => h x (by simp [hx])
    simpa using ih hrest (max a c) (by simp [ha, hc])

/-- `pyMaxNat` of a uniformly-zero count list is zero. -/
theorem pyMaxNat_all_zero (l : List ℕ) (h : ∀ c ∈ l, c = 0) : pyMaxNat l = 0 := by
  cases l with
  | nil => rfl
  | cons c rest =>
    have hc : c = 0 := h c (by simp)
    exact foldl_max_all_zero rest (fun x hx => h x (by simp [hx])) c hc

/-- Inserting into a list grows its length by one. -/
theorem insertAscQ_length (x : ℚ) : ∀ l : List ℚ, (insertAscQ x l).length = l.length + 1 := by
  intro l
  induction l with
  | nil => rfl
  | cons y ys ih =>
    unfold insertAscQ
    by_cases hxy : x ≤ y
    · simp [hxy]
    · simp [hxy, ih]

/-- Sorting preserves length. -/
theorem sortAscQ_length (l : List ℚ) : (sortAscQ l).length = l.length := by
  suffices h : ∀ (l acc : List ℚ),
      (l.foldl (fun a x => insertAscQ x a) acc).length = l.length + acc.length by
    simpa using h l []
  intro l
  induction l with
  | nil => simp
  | cons x xs ih =>
    intro acc
    simp only [List.foldl_cons, List.length_cons]
    rw [ih (insertAscQ x acc), insertAscQ_length]
    omega

/-- With at least two data points the quartile computation succeeds. -/
theorem quantiles4_some (data : List ℚ) (h : 2 ≤ data.length) :
    ∃ q, quantiles4 data = some q := by
  have hld : ¬ (sortAscQ data).length < 2 := by rw [sortAscQ_length]; omega
  simp only [quantiles4, hld, if_false]
  exact ⟨_, rfl⟩

/-- Membership in `sorted(list(set(l)))` is membership in `l`. -/
theorem mem_sortedSetInt {x : ℤ} {l : List ℤ} : x ∈ sortedSetInt l ↔ x ∈ l := by
  simp [sortedSetInt, Finset.mem_sort, List.mem_toFinset]

/-- `sorted(list(set(l)))` is strictly increasing. -/
theorem sortedSetInt_sorted_lt (l : List ℤ) : (sortedSetInt l).Sorted (· < ·) :=
  Finset.sort_sorted_lt _

/-- For `steps ≥ 2`, a gradient between valid endpoints succeeds and yields
exactly `steps` colors. -/
theorem gradient_ok_of_valid (s e : String) (steps : ℕ)
    (hs : validHex s = true) (he : validHex e = true) (h2 : 2 ≤ steps) :
    ∃ colors, generate_color_gradient s e steps = .ok colors ∧
      colors.length = steps := by
  unfold validHex at hs he
  cases hhs : hex_to_hsv s with
  | error err => rw [hhs] at hs; simp at hs
  | ok v =>
    cases hhe : hex_to_hsv e with
    | error err => rw [hhe] at he; simp at he
    | ok w =>
      have h0 : ¬ steps = 0 := by omega
      have h1 : ¬ steps = 1 := by omega
      refine ⟨(List.range steps).map (fun (i : ℕ) =>
          hsv_to_hex (hsvLerp v w ((i : ℚ) / ((steps : ℚ) - 1)))), ?_,
        by rw [List.length_map, List.length_range]⟩
      simp [generate_color_gradient, hhs, hhe, bind, Except.bind, h0, h1,
        pure, Except.pure]

/-- The integer keys of the dynamically built color map are exactly the
threshold list (in order). -/
theorem mapNumKeys_build (th : List ℤ) (colors : List String) (lastc : String)
    (h : th.length ≤ colors.length) :
    mapNumKeys ((th.zip colors).map (fun p => (ThKey.num p.1, p.2))
      ++ [(ThKey.more, lastc)]) = th := by
  induction th generalizing colors with
  | nil => rfl
  | cons x xs ih =>
    cases colors with
    | nil => simp at h
    | cons c cs =>
      have htail := ih cs (by simpa using h)
      simpa [mapNumKeys, List.filterMap_cons] using htail

/-- `find?` for the catch-all key skips entries with numeric keys. -/
theorem find?_more_skip (l : List (ThKey × String))
    (h : ∀ p ∈ l, p.1 ≠ ThKey.more) (rest : List (ThKey × String)) :
    (l ++ rest).find? (fun p => p.1 == ThKey.more) =
      rest.find? (fun p => p.1 == ThKey.more) := by
  induction l with
  | nil => rfl
  | cons x xs ih =>
    have hx : (x.1 == ThKey.more) = false := by
      simpa using h x (by simp)
    simp only [List.cons_append, List.find?_cons, hx]
    exact ih (fun p hp => h p (by simp [hp]))

/-- Looking up the catch-all key in the dynamically built color map yields
the appended final gradient color. -/
theorem lookupColor_build_more (l : List (ThKey × String)) (lastc : String)
    (h : ∀ p ∈ l, p.1 ≠ ThKey.more) :
    lookupColor (l ++ [(ThKey.more, lastc)]) .more = some lastc := by
  unfold lookupColor
  rw [find?_more_skip l h]
  simp [List.find?]

/-- In the recognized, non-degenerate, quartile-computable case,
`calculate_color_thresholds` returns the dynamically built map, whose
threshold list contains 0 and the maximum count, is strictly increasing, and
whose catch-all entry is the final gradient color appended last. -/
theorem calc_thresholds_dynamic (techniques : List AnnTechnique)
    (count_type : String) (q1 q2 q3 : ℚ)
    (hv : count_type ∈ valid_count_types)
    (hq : quantiles4 ((countsOf techniques count_type).map (fun (n : ℕ) => (n : ℚ))) =
      some (q1, q2, q3))
    (hne : countsOf techniques count_type ≠ [])
    (hmax : pyMaxNat (countsOf techniques count_type) ≠ 0) :
    ∃ (th : List ℤ) (colors : List String) (lastc : String),
      generate_color_gradient "#ffffff" "#000066" (th.length + 1) = .ok colors ∧
      colors.length = th.length + 1 ∧
      colors.getLast? = some lastc ∧
      calculate_color_thresholds techniques count_type =
        .ok ((th.zip colors).map (fun p => (ThKey.num p.1, p.2))
             ++ [(ThKey.more, lastc)]) ∧
      th.Sorted (· < ·) ∧ (0 : ℤ) ∈ th ∧
      ((pyMaxNat (countsOf techniques count_type) : ℤ)) ∈ th := by
  have hlq : ¬ ((countsOf techniques count_type).map (fun (n : ℕ) => (n : ℚ))).length = 0 := by
    rw [List.length_map]
    intro hcon
    exact hne (List.eq_nil_of_length_eq_zero hcon)
  obtain ⟨mv, hmean⟩ : ∃ mv,
      pyMean ((countsOf techniques count_type).map (fun (n : ℕ) => (n : ℚ))) = some mv := by
    simp only [pyMean, hlq, if_false]
    exact ⟨_, rfl⟩
  set maxc := pyMaxNat (countsOf techniques count_type) with hmaxc
  set th := sortedSetInt [0, pyRound q1, pyRound mv, pyRound q3,
    pyRound ((maxc : ℚ) * (9 / 10)), (maxc : ℤ)] with hth
  have h0mem : (0 : ℤ) ∈ th := by
    rw [hth]; exact mem_sortedSetInt.mpr (by simp)
  have hmaxmem : ((maxc : ℤ)) ∈ th := by
    rw [hth]; exact mem_sortedSetInt.mpr (by simp)
  have hthne : th ≠ [] := List.ne_nil_of_mem h0mem
  have hsteps : 2 ≤ th.length + 1 := by
    cases hthl : th with
    | nil => exact absurd hthl hthne
    | cons a l => simp
  obtain ⟨colors, hgrad, hclen⟩ :=
    gradient_ok_of_valid "#ffffff" "#000066" (th.length + 1) (by rfl) (by rfl) hsteps
  have hcne : colors ≠ [] := by
    intro hcon
    rw [hcon] at hclen
    simp at hclen
  obtain ⟨lastc, hlast⟩ : ∃ c, colors.getLast? = some c := by
    cases hg : colors.getLast? with
    | none => exact absurd (List.getLast?_eq_none_iff.mp hg) hcne
    | some c => exact ⟨c, rfl⟩
  refine ⟨th, colors, lastc, hgrad, hclen, hlast, ?_, ?_, h0mem, hmaxmem⟩
  · unfold calculate_color_thresholds
    simp only [hv, not_true_eq_false, if_false, hne, ← hmaxc, hmax, hq, hmean, ← hth,
      hgrad, hlast]
  · rw [hth]; exact sortedSetInt_sorted_lt _

/-- Membership through one descending insertion. -/
theorem mem_insertDesc (key : AnnTechnique → ℕ) (x a : AnnTechnique) :
    ∀ l, a ∈ insertDesc key x l ↔ a = x ∨ a ∈ l := by
  intro l
  induction l with
  | nil => simp [insertDesc]
  | cons y ys ih =>
    unfold insertDesc
    by_cases h : key y < key x
    · simp [h]
    · simp [h, ih]
      tauto

/-- The stable descending sort is a permutation membership-wise. -/
theorem mem_pySortedDesc (key : AnnTechnique → ℕ) (l : List AnnTechnique)
    (a : AnnTechnique) : a ∈ pySortedDesc key l ↔ a ∈ l := by
  suffices h : ∀ (l acc : List AnnTechnique),
      (a ∈ l.foldl (fun acc x => insertDesc key x acc) acc ↔ a ∈ acc ∨ a ∈ l) by
    simpa [pySortedDesc] using h l []
  intro l
  induction l with
  | nil => simp
  | cons x xs ih =>
    intro acc
    simp only [List.foldl_cons]
    rw [ih (insertDesc key x acc), mem_insertDesc]
    simp
    tauto

/-- Elements of the top-5 selection come from the input list. -/
theorem mem_get_top_5 (key : AnnTechnique → ℕ) (ts : List AnnTechnique)
    (a : AnnTechnique) (h : a ∈ get_top_5 ts key) : a ∈ ts :=
  (mem_pySortedDesc key ts a).mp (List.take_subset _ _ h)

/-- `techRef` succeeds on a technique that has an identifier. -/
theorem techRef_ok (t : AnnTechnique) (count : ℕ) (h : t.technique_id.isSome) :
    ∃ r, techRef t count = .ok r := by
  cases ht : t.technique_id with
  | none => rw [ht] at h; simp at h
  | some i => exact ⟨⟨i, t.name, count⟩, by simp [techRef, ht]⟩

/-- `mapExcept` over `techRef` succeeds when every element has an identifier. -/
theorem mapExcept_techRef_ok (key : AnnTechnique → ℕ) :
    ∀ (l : List AnnTechnique), (∀ t ∈ l, t.technique_id.isSome) →
      ∃ rs, mapExcept (fun t => techRef t (key t)) l = Except.ok rs := by
  intro l
  induction l with
  | nil => exact fun _ => ⟨[], rfl⟩
  | cons x xs ih =>
    intro h
    obtain ⟨rs, hrs⟩ := ih (fun t ht => h t (by simp [ht]))
    obtain ⟨r, hr⟩ := techRef_ok x (key x) (h x (by simp))
    exact ⟨r :: rs, by simp [mapExcept, hr, hrs]⟩

/-- `top5Refs` succeeds when every technique has an identifier. -/
theorem top5Refs_ok (ann : List AnnTechnique) (key : AnnTechnique → ℕ)
    (h : ∀ t ∈ ann, t.technique_id.isSome) :
    ∃ rs, top5Refs ann key = Except.ok rs := by
  unfold top5Refs
  exact mapExcept_techRef_ok key (get_top_5 ann key)
    (fun t ht => h t (mem_get_top_5 key ann t ht))

/-- The first-max fold returns either its accumulator or a list element. -/
theorem foldl_firstmax_mem (key : AnnTechnique → ℕ) :
    ∀ (l : List AnnTechnique) (a : AnnTechnique),
      l.foldl (fun m x => if key m < key x then x else m) a = a ∨
      l.foldl (fun m x => if key m < key x then x else m) a ∈ l := by
  intro l
  induction l with
  | nil => intro a; left; rfl
  | cons x xs ih =>
    intro a
    simp only [List.foldl_cons]
    rcases ih (if key a < key x then x else a) with h | h
    · rw [h]
      by_cases hax : key a < key x
      · right; simp [hax]
      · left; simp [hax]
    · right; simp [h]

/-- `max()` on a non-empty list succeeds and returns a list element. -/
theorem pyMax_ok_mem (key : AnnTechnique → ℕ) (l : List AnnTechnique)
    (hne : l ≠ []) : ∃ m, pyMax key l = .ok m ∧ m ∈ l := by
  cases l with
  | nil => exact absurd rfl hne
  | cons t rest =>
    refine ⟨_, rfl, ?_⟩
    rcases foldl_firstmax_mem key rest t with h | h
    · rw [h]; simp
    · simp [h]

/-! ## Claim theorems -/

/-- C7: for any pair of valid hex endpoint colors, calling
`generate_color_gradient` with `steps == 1` raises a `ZeroDivisionError`
(ratio denominator `steps - 1` is zero on the loop's first iteration), which
propagates to the caller. -/
theorem gradient_one_step_zero_division (s e : String)
    (hs : validHex s = true) (he : validHex e = true) :
    generate_color_gradient s e 1 = .error .zeroDivisionError := by
  unfold validHex at hs he
  unfold generate_color_gradient
  cases hhs : hex_to_hsv s with
  | error err => rw [hhs] at hs; simp at hs
  | ok v =>
    cases hhe : hex_to_hsv e with
    | error err => rw [hhe] at he; simp at he
    | ok w => simp [hhs, hhe, bind, Except.bind, throw, throwThe, MonadExceptOf.throw]

/-- Witness for C7 at the concrete endpoints `#ffffff`, `#ff0000`. -/
theorem gradient_one_step_zero_division_witness :
    generate_color_gradient "#ffffff" "#ff0000" 1 = .error .zeroDivisionError :=
  gradient_one_step_zero_division "#ffffff" "#ff0000" (by rfl) (by rfl)

/-- C10: for any pair of valid hex endpoint colors, calling
`generate_color_gradient` with `steps == 0` returns the empty list without
raising: the interpolation loop runs zero times, so the division by
`steps - 1` is never executed. -/
theorem gradient_zero_steps_empty (s e : String)
    (hs : validHex s = true) (he : validHex e = true) :
    generate_color_gradient s e 0 = .ok [] := by
  unfold validHex at hs he
  unfold generate_color_gradient
  cases hhs : hex_to_hsv s with
  | error err => rw [hhs] at hs; simp at hs
  | ok v =>
    cases hhe : hex_to_hsv e with
    | error err => rw [hhe] at he; simp at he
    | ok w => simp [hhs, hhe, bind, Except.bind, pure, Except.pure]

/-- Witness for C10 at the concrete endpoints `#ffffff`, `#ff0000`. -/
theorem gradient_zero_steps_empty_witness :
    generate_color_gradient "#ffffff" "#ff0000" 0 = .ok [] :=
  gradient_zero_steps_empty "#ffffff" "#ff0000" (by rfl) (by rfl)

/-- C8: when the extracted count list is empty or uniformly 0, and for every
unrecognized dimension name, `calculate_color_thresholds` returns exactly the
fixed default scheme: breakpoints 0, 1, 2, 4, 6, 11 and `"more"`, each bound
to its fixed red-gradient color. -/
theorem calc_thresholds_default_cases (techniques : List AnnTechnique)
    (count_type : String)
    (h : count_type ∉ valid_count_types ∨ countsOf techniques count_type = [] ∨
         ∀ c ∈ countsOf techniques count_type, c = 0) :
    calculate_color_thresholds techniques count_type =
      .ok [(ThKey.num 0, "#ffffff"), (ThKey.num 1, "#ff6666"),
           (ThKey.num 2, "#f94444"), (ThKey.num 4, "#e41b1b"),
           (ThKey.num 6, "#f10000"), (ThKey.num 11, "#950000"),
           (ThKey.more, "#2b0000")] := by
  unfold calculate_color_thresholds
  by_cases hv : count_type ∈ valid_count_types
  · rcases h with h | h | h
    · exact absurd hv h
    · simp [hv, h, default_color_scheme]
    · by_cases hemp : countsOf techniques count_type = []
      · simp [hv, hemp, default_color_scheme]
      · simp [hv, hemp, pyMaxNat_all_zero _ h, default_color_scheme]
  · simp [hv, default_color_scheme]

/-- Witness for C8: empty technique list, recognized dimension. -/
theorem calc_thresholds_default_cases_witness :
    calculate_color_thresholds [] "groups" =
      .ok [(ThKey.num 0, "#ffffff"), (ThKey.num 1, "#ff6666"),
           (ThKey.num 2, "#f94444"), (ThKey.num 4, "#e41b1b"),
           (ThKey.num 6, "#f10000"), (ThKey.num 11, "#950000"),
           (ThKey.more, "#2b0000")] :=
  calc_thresholds_default_cases [] "groups" (Or.inr (Or.inl rfl))

/-- A technique whose groups count is 5 (all other counts 0). -/
def cex1Tech : AnnTechnique :=
  { technique_id := some "T0001", name := "t", related_relationships := [],
    stats := { groups_count := some 5, mitigations_count := some 0,
               relationships_count := some 0, referenced_count := some 0 } }

/-- C1 counterexample: for the one-element count list [5] (non-empty, max 5
greater than 0), the quartile computation raises `StatisticsError` (fewer
than two data points), so `calculate_color_thresholds` falls back to the
default scheme — whose numeric keys do not include the maximum count 5. -/
theorem calc_thresholds_single_count_cex :
    countsOf [cex1Tech] "groups" = [5] ∧
    pyMaxNat (countsOf [cex1Tech] "groups") = 5 ∧
    calculate_color_thresholds [cex1Tech] "groups" = .ok default_color_scheme ∧
    mapNumKeys default_color_scheme = [0, 1, 2, 4, 6, 11] ∧
    (5 : ℤ) ∉ mapNumKeys default_color_scheme :=
  ⟨by rfl, by rfl, by rfl, by rfl, by decide⟩

/-- C2 counterexample: the default scheme (returned, e.g., for an empty
technique list) binds its highest numeric breakpoint 11 to `#950000` while
the catch-all `"more"` key is bound to `#2b0000` — the catch-all does not map
to the same color as the highest numeric breakpoint. -/
theorem more_color_differs_cex :
    calculate_color_thresholds [] "groups" = .ok default_color_scheme ∧
    (mapNumKeys default_color_scheme).getLast? = some 11 ∧
    lookupColor default_color_scheme (.num 11) = some "#950000" ∧
    lookupColor default_color_scheme .more = some "#2b0000" ∧
    ("#950000" : String) ≠ "#2b0000" :=
  ⟨by rfl, by rfl, by rfl, by rfl, by decide⟩

/-- C3 counterexample: on an empty technique list
`analyze_and_update_techniques` raises `ValueError` (`max()` of an empty
sequence) instead of returning a summary record with zero averages. -/
theorem analyze_empty_raises_cex :
    analyze_and_update_techniques [] 7 = .error .valueError := by rfl

/-- C1 (amended): the property holds once the extracted count list has at
least two elements — with exactly one element the quartile computation fails
and the fixed default scheme is returned instead (see the counterexample).
For every recognized dimension whose count list has length at least 2 and
maximum greater than 0, the returned map's integer keys are strictly
increasing in map order and include both 0 and the maximum count, and the
"more" key's color equals the last color of the generated gradient. -/
theorem calc_thresholds_keys_spec (techniques : List AnnTechnique)
    (count_type : String)
    (hv : count_type ∈ valid_count_types)
    (hlen2 : 2 ≤ (countsOf techniques count_type).length)
    (hmax : 0 < pyMaxNat (countsOf techniques count_type)) :
    ∃ (cm : ColorMap) (colors : List String),
      calculate_color_thresholds techniques count_type = .ok cm ∧
      (mapNumKeys cm).Sorted (· < ·) ∧
      (0 : ℤ) ∈ mapNumKeys cm ∧
      ((pyMaxNat (countsOf techniques count_type) : ℤ)) ∈ mapNumKeys cm ∧
      generate_color_gradient "#ffffff" "#000066" ((mapNumKeys cm).length + 1) =
        .ok colors ∧
      lookupColor cm .more = colors.getLast? := by
  have hne : countsOf techniques count_type ≠ [] := by
    intro hcon
    rw [hcon] at hlen2
    simp at hlen2
  obtain ⟨⟨q1, q2, q3⟩, hq⟩ := quantiles4_some
    ((countsOf techniques count_type).map (fun (n : ℕ) => (n : ℚ)))
    (by rw [List.length_map]; exact hlen2)
  obtain ⟨th, colors, lastc, hgrad, hclen, hlast, hcalc, hsorted, h0, hmaxmem⟩ :=
    calc_thresholds_dynamic techniques count_type q1 q2 q3 hv hq hne (by omega)
  have hkeys : mapNumKeys ((th.zip colors).map (fun p => (ThKey.num p.1, p.2))
      ++ [(ThKey.more, lastc)]) = th :=
    mapNumKeys_build th colors lastc (by omega)
  have hnomore : ∀ p ∈ (th.zip colors).map (fun p => (ThKey.num p.1, p.2)),
      p.1 ≠ ThKey.more := by
    intro p hp
    obtain ⟨⟨a, b⟩, hmem, hpe⟩ := List.mem_map.mp hp
    rw [← hpe]
    simp
  refine ⟨_, colors, hcalc, ?_, ?_, ?_, ?_, ?_⟩
  · rw [hkeys]; exact hsorted
  · rw [hkeys]; exact h0
  · rw [hkeys]; exact hmaxmem
  · rw [hkeys]; exact hgrad
  · rw [lookupColor_build_more _ lastc hnomore, hlast]

/-- Two techniques giving the "groups" count list [2, 0]. -/
def c1wTechs : List AnnTechnique :=
  [{ technique_id := some "T1001", name := "a", related_relationships := [],
     stats := { groups_count := some 2, mitigations_count := some 0,
                relationships_count := some 0, referenced_count := some 0 } },
   { technique_id := some "T1002", name := "b", related_relationships := [],
     stats := { groups_count := some 0, mitigations_count := some 1,
                relationships_count := some 0, referenced_count := some 0 } }]

/-- Witness for the amended C1 at the concrete count list [2, 0]. -/
theorem calc_thresholds_keys_spec_witness :
    ∃ (cm : ColorMap) (colors : List String),
      calculate_color_thresholds c1wTechs "groups" = .ok cm ∧
      (mapNumKeys cm).Sorted (· < ·) ∧
      (0 : ℤ) ∈ mapNumKeys cm ∧
      ((pyMaxNat (countsOf c1wTechs "groups") : ℤ)) ∈ mapNumKeys cm ∧
      generate_color_gradient "#ffffff" "#000066" ((mapNumKeys cm).length + 1) =
        .ok colors ∧
      lookupColor cm .more = colors.getLast? :=
  calc_thresholds_keys_spec c1wTechs "groups" (by decide) (by decide) (by decide)

/-- C2 (amended): every map produced by `calculate_color_thresholds`
satisfies: the integer breakpoints are strictly increasing in map order, and
the catch-all key "more" exists as the final entry and maps to the scheme's
final (gradient-end) color — which is one gradient step past the highest
numeric breakpoint's color rather than equal to it (see the
counterexample). -/
theorem color_map_invariant (techniques : List AnnTechnique) (count_type : String) :
    ∃ cm : ColorMap,
      calculate_color_thresholds techniques count_type = .ok cm ∧
      (mapNumKeys cm).Sorted (· < ·) ∧
      ∃ c : String, cm.getLast? = some (ThKey.more, c) ∧
        lookupColor cm .more = some c := by
  have hdef1 : (mapNumKeys default_color_scheme).Sorted (· < ·) := by decide
  have hdef2 : default_color_scheme.getLast? = some (ThKey.more, "#2b0000") := by rfl
  have hdef3 : lookupColor default_color_scheme .more = some "#2b0000" := by rfl
  by_cases hv : count_type ∈ valid_count_types
  · by_cases hne : countsOf techniques count_type = []
    · refine ⟨default_color_scheme, ?_, hdef1, "#2b0000", hdef2, hdef3⟩
      simp [calculate_color_thresholds, hv, hne]
    · by_cases hmax : pyMaxNat (countsOf techniques count_type) = 0
      · refine ⟨default_color_scheme, ?_, hdef1, "#2b0000", hdef2, hdef3⟩
        simp [calculate_color_thresholds, hv, hne, hmax]
      · cases hq : quantiles4
            ((countsOf techniques count_type).map (fun (n : ℕ) => (n : ℚ))) with
        | none =>
          refine ⟨default_color_scheme, ?_, hdef1, "#2b0000", hdef2, hdef3⟩
          simp [calculate_color_thresholds, hv, hne, hmax, hq]
        | some qs =>
          obtain ⟨q1, q2, q3⟩ := qs
          obtain ⟨th, colors, lastc, hgrad, hclen, hlast, hcalc, hsorted, h0, hmaxmem⟩ :=
            calc_thresholds_dynamic techniques count_type q1 q2 q3 hv hq hne hmax
          refine ⟨_, hcalc, ?_, lastc, ?_, ?_⟩
          · rw [mapNumKeys_build th colors lastc (by omega)]
            exact hsorted
          · exact List.getLast?_concat _
          · refine lookupColor_build_more _ lastc ?_
            intro p hp
            obtain ⟨⟨a, b⟩, hmem, hpe⟩ := List.mem_map.mp hp
            rw [← hpe]
            simp
  · refine ⟨default_color_scheme, ?_, hdef1, "#2b0000", hdef2, hdef3⟩
    simp [calculate_color_thresholds, hv]

/-- C3 (amended): the guarded averages never raise, but the function itself
raises on an empty technique list (`max()` of an empty sequence, see the
counterexample) before any average is computed.  For every non-empty
technique list whose techniques all carry an identifier,
`analyze_and_update_techniques` returns a summary whose per-dimension
averages equal the dimension total divided by the technique count — the
`total > 0` guard that would yield 0 for an empty working set is present but
unreachable past the `max()` step, and for integer counts no other
computation error can arise in an average. -/
theorem analyze_nonempty_averages (techniques : List Technique) (n : ℕ)
    (hne : techniques ≠ [])
    (hids : ∀ t ∈ techniques, t.technique_id.isSome) :
    ∃ (st : OverallStats) (ann : List AnnTechnique),
      analyze_and_update_techniques techniques n = .ok (st, ann) ∧
      0 < st.total_used_techniques ∧
      st.avg_groups_per_technique =
        (st.total_groups : ℚ) / (st.total_used_techniques : ℚ) ∧
      st.avg_mitigations_per_technique =
        (st.total_mitigations : ℚ) / (st.total_used_techniques : ℚ) ∧
      st.avg_relationships_per_technique =
        (st.total_relationships : ℚ) / (st.total_used_techniques : ℚ) ∧
      st.avg_references_per_technique =
        (st.total_references : ℚ) / (st.total_used_techniques : ℚ) := by
  have hpos : 0 < techniques.length := List.length_pos.mpr hne
  set ann := techniques.map annotate with hann
  have hann_ids : ∀ t ∈ ann, t.technique_id.isSome := by
    intro t ht
    rw [hann] at ht
    obtain ⟨t0, ht0, hteq⟩ := List.mem_map.mp ht
    rw [← hteq]
    simpa [annotate] using hids t0 ht0
  have hann_ne : ann ≠ [] := by
    rw [hann]
    simpa using hne
  obtain ⟨r1, h1⟩ := top5Refs_ok ann kGroups hann_ids
  obtain ⟨r2, h2⟩ := top5Refs_ok ann kMitigations hann_ids
  obtain ⟨r3, h3⟩ := top5Refs_ok ann kRelationships hann_ids
  obtain ⟨r4, h4⟩ := top5Refs_ok ann kReferences hann_ids
  obtain ⟨m1, hm1, hm1m⟩ := pyMax_ok_mem kGroups ann hann_ne
  obtain ⟨m2, hm2, hm2m⟩ := pyMax_ok_mem kMitigations ann hann_ne
  obtain ⟨m3, hm3, hm3m⟩ := pyMax_ok_mem kRelationships ann hann_ne
  obtain ⟨m4, hm4, hm4m⟩ := pyMax_ok_mem kReferences ann hann_ne
  obtain ⟨f1, hf1⟩ := techRef_ok m1 (kGroups m1) (hann_ids m1 hm1m)
  obtain ⟨f2, hf2⟩ := techRef_ok m2 (kMitigations m2) (hann_ids m2 hm2m)
  obtain ⟨f3, hf3⟩ := techRef_ok m3 (kRelationships m3) (hann_ids m3 hm3m)
  obtain ⟨f4, hf4⟩ := techRef_ok m4 (kReferences m4) (hann_ids m4 hm4m)
  set strec : OverallStats :=
      { all_techniques := n
        total_used_techniques := techniques.length
        total_groups := (ann.map kGroups).sum
        total_mitigations := (ann.map kMitigations).sum
        total_relationships := (ann.map kRelationships).sum
        total_references := (ann.map kReferences).sum
        avg_groups_per_technique :=
          if 0 < techniques.length then
            ((ann.map kGroups).sum : ℚ) / (techniques.length : ℚ) else 0
        avg_mitigations_per_technique :=
          if 0 < techniques.length then
            ((ann.map kMitigations).sum : ℚ) / (techniques.length : ℚ) else 0
        avg_relationships_per_technique :=
          if 0 < techniques.length then
            ((ann.map kRelationships).sum : ℚ) / (techniques.length : ℚ) else 0
        avg_references_per_technique :=
          if 0 < techniques.length then
            ((ann.map kReferences).sum : ℚ) / (techniques.length : ℚ) else 0
        most_targeted_technique := f1
        most_mitigated_technique := f2
        most_related_technique := f3
        most_referenced_technique := f4
        top_5_by_groups := r1
        top_5_by_mitigations := r2
        top_5_by_relationships := r3
        top_5_by_references := r4 } with hstrec
  have hbuild : buildOverallStats ann n techniques.length = .ok strec := by
    simp [buildOverallStats, h1, h2, h3, h4, hm1, hm2, hm3, hm4, hf1, hf2, hf3, hf4,
      hstrec, bind, Except.bind, pure, Except.pure]
  refine ⟨strec, ann, ?_, hpos, ?_, ?_, ?_, ?_⟩
  · simp [analyze_and_update_techniques, ← hann, hbuild]
  · rw [hstrec]; simp [hpos]
  · rw [hstrec]; simp [hpos]
  · rw [hstrec]; simp [hpos]
  · rw [hstrec]; simp [hpos]

/-- A single complete technique record for the C3 witness. -/
def c3wTech : Technique :=
  { technique_id := some "T1001", name := "a", groups := ["g1"], mitigations := [],
    related_relationships := [], external_references := [] }

/-- Witness for the amended C3 on a one-technique list. -/
theorem analyze_nonempty_averages_witness :
    ∃ (st : OverallStats) (ann : List AnnTechnique),
      analyze_and_update_techniques [c3wTech] 1 = .ok (st, ann) ∧
      0 < st.total_used_techniques ∧
      st.avg_groups_per_technique =
        (st.total_groups : ℚ) / (st.total_used_techniques : ℚ) ∧
      st.avg_mitigations_per_technique =
        (st.total_mitigations : ℚ) / (st.total_used_techniques : ℚ) ∧
      st.avg_relationships_per_technique =
        (st.total_relationships : ℚ) / (st.total_used_techniques : ℚ) ∧
      st.avg_references_per_technique =
        (st.total_references : ℚ) / (st.total_used_techniques : ℚ) :=
  analyze_nonempty_averages [c3wTech] 1 (by simp) (by decide)

/-- C4: whenever `analyze_and_update_techniques` returns, the returned
technique list is the annotated input list, and every technique's
`stats.relationships_count` equals the number of its `related_relationships`
whose `relationship_type` is not "mitigates", while `referenced_count`
equals the size of its `external_references`. -/
theorem analyze_stats_counts (techniques : List Technique) (n : ℕ)
    (st : OverallStats) (ann : List AnnTechnique)
    (h : analyze_and_update_techniques techniques n = .ok (st, ann)) :
    ann = techniques.map annotate ∧
    ∀ t ∈ techniques,
      (annotate t).stats.relationships_count =
        some (t.related_relationships.countP
          (fun r => r.relationship_type != some "mitigates")) ∧
      (annotate t).stats.referenced_count = some t.external_references.length := by
  constructor
  · simp only [analyze_and_update_techniques] at h
    cases hb : buildOverallStats (techniques.map annotate) n techniques.length with
    | ok st2 =>
      rw [hb] at h
      simp at h
      exact h.2.symm
    | error e =>
      rw [hb] at h
      simp at h
  · intro t ht
    constructor
    · simp [annotate, List.countP_eq_length_filter]
    · simp [annotate]

/-- The technique list of the C4 witness: one technique with two
relationships, one of which is a "mitigates" edge, and one reference. -/
def c4Techs : List Technique :=
  [{ technique_id := some "T1001", name := "a", groups := ["g1", "g2"],
     mitigations := [], external_references := ["r1"],
     related_relationships :=
       [{ relationship_type := some "uses" },
        { relationship_type := some "mitigates" }] }]

/-- Fallback summary record for the witness extractors (never used on the
successful path). -/
def dfltStats : OverallStats :=
  { all_techniques := 0, total_used_techniques := 0, total_groups := 0,
    total_mitigations := 0, total_relationships := 0, total_references := 0,
    avg_groups_per_technique := 0, avg_mitigations_per_technique := 0,
    avg_relationships_per_technique := 0, avg_references_per_technique := 0,
    most_targeted_technique := ⟨"", "", 0⟩, most_mitigated_technique := ⟨"", "", 0⟩,
    most_related_technique := ⟨"", "", 0⟩, most_referenced_technique := ⟨"", "", 0⟩,
    top_5_by_groups := [], top_5_by_mitigations := [],
    top_5_by_relationships := [], top_5_by_references := [] }

/-- The result of running the aggregator on the C4 witness input. -/
def c4Res : Except PyErr (OverallStats × List AnnTechnique) :=
  analyze_and_update_techniques c4Techs 3

/-- Summary component of `c4Res`. -/
def c4St : OverallStats :=
  match c4Res with
  | .ok p => p.1
  | .error _ => dfltStats

/-- Annotated-technique component of `c4Res`. -/
def c4Ann : List AnnTechnique :=
  match c4Res with
  | .ok p => p.2
  | .error _ => []

/-- Witness for C4 on a concrete aggregator run. -/
theorem analyze_stats_counts_witness :
    c4Ann = c4Techs.map annotate ∧
    ∀ t ∈ c4Techs,
      (annotate t).stats.relationships_count =
        some (t.related_relationships.countP
          (fun r => r.relationship_type != some "mitigates")) ∧
      (annotate t).stats.referenced_count = some t.external_references.length :=
  analyze_stats_counts c4Techs 3 c4St c4Ann (by rfl)

/-- Every technique with an identifier contributes an entry to the built
entry list, whose enabled flag is true exactly when `hide_uncovered` is
false or its count is positive. -/
theorem buildEntries_enabled (colors : ColorMap) (count_type : String)
    (hide : Bool) :
    ∀ (ts : List AnnTechnique) (es : List LayerEntry),
      buildEntries colors count_type hide ts = .ok es →
      ∀ t ∈ ts, t.technique_id.getD "" ≠ "" →
        ∃ e ∈ es, e.techniqueID = t.technique_id.getD "" ∧
          (e.enabled = true ↔ (hide = false ∨ 0 < statsGet t.stats count_type)) := by
  intro ts
  induction ts with
  | nil =>
    intro es h t ht
    simp at ht
  | cons x xs ih =>
    intro es h t ht hid
    simp only [buildEntries] at h
    by_cases hx : x.technique_id.getD "" = ""
    · rw [if_pos hx] at h
      rcases List.mem_cons.mp ht with heq | htx
      · rw [heq] at hid
        exact absurd hx hid
      · exact ih es h t htx hid
    · rw [if_neg hx] at h
      cases hc : find_color_for_count colors ((statsGet x.stats count_type : ℕ) : ℤ) with
      | error err =>
        rw [hc] at h
        simp at h
      | ok color =>
        rw [hc] at h
        cases hr : buildEntries colors count_type hide xs with
        | error err =>
          rw [hr] at h
          simp at h
        | ok res =>
          rw [hr] at h
          simp only [Except.ok.injEq] at h
          rcases List.mem_cons.mp ht with heq | htx
          · refine ⟨{ techniqueID := x.technique_id.getD ""
                      color := color
                      comment := mkComment count_type (statsGet x.stats count_type) x
                      showSubtechniques := true
                      enabled := !hide || decide (0 < statsGet x.stats count_type) },
              ?_, ?_, ?_⟩
            · rw [← h]
              simp
            · rw [heq]
            · rw [heq]
              cases hide <;> simp
          · obtain ⟨e, he, hprop⟩ := ih res hr t htx hid
            refine ⟨e, ?_, hprop⟩
            rw [← h]
            simp [he]

/-- The built entry list has one entry per technique with an identifier, and
every entry carries a non-empty identifier. -/
theorem buildEntries_shape (colors : ColorMap) (count_type : String)
    (hide : Bool) :
    ∀ (ts : List AnnTechnique) (es : List LayerEntry),
      buildEntries colors count_type hide ts = .ok es →
      es.length = (ts.filter (fun t => t.technique_id.getD "" != "")).length ∧
      ∀ e ∈ es, e.techniqueID ≠ "" := by
  intro ts
  induction ts with
  | nil =>
    intro es h
    simp only [buildEntries, Except.ok.injEq] at h
    rw [← h]
    simp
  | cons x xs ih =>
    intro es h
    simp only [buildEntries] at h
    by_cases hx : x.technique_id.getD "" = ""
    · rw [if_pos hx] at h
      obtain ⟨hlen, hids⟩ := ih es h
      constructor
      · rw [hlen, List.filter_cons]
        simp [hx]
      · exact hids
    · rw [if_neg hx] at h
      cases hc : find_color_for_count colors ((statsGet x.stats count_type : ℕ) : ℤ) with
      | error err =>
        rw [hc] at h
        simp at h
      | ok color =>
        rw [hc] at h
        cases hr : buildEntries colors count_type hide xs with
        | error err =>
          rw [hr] at h
          simp at h
        | ok res =>
          rw [hr] at h
          simp only [Except.ok.injEq] at h
          obtain ⟨hlen, hids⟩ := ih res hr
          constructor
          · rw [← h, List.filter_cons]
            simp [hx, hlen]
          · intro e he
            rw [← h] at he
            rcases List.mem_cons.mp he with heq | hee
            · rw [heq]
              simpa using hx
            · exact hids e hee

/-- C6: in every layer document built by `create_navigator_layer`, the entry
of a technique with an identifier has `enabled = true` iff `hide_uncovered`
is false or the technique's count for the requested dimension is greater
than 0. -/
theorem layer_enabled_iff (techniques : List AnnTechnique) (layer_name : String)
    (count_type : String) (hide : Bool) (layer : NavigatorLayer)
    (h : create_navigator_layer techniques layer_name count_type hide = .ok layer) :
    ∀ t ∈ techniques, t.technique_id.getD "" ≠ "" →
      ∃ e ∈ layer.techniques, e.techniqueID = t.technique_id.getD "" ∧
        (e.enabled = true ↔ (hide = false ∨ 0 < statsGet t.stats count_type)) := by
  simp only [create_navigator_layer, bind, Except.bind] at h
  cases hcm : calculate_color_thresholds techniques count_type with
  | error err =>
    rw [hcm] at h
    simp at h
  | ok cm =>
    rw [hcm] at h
    simp only [] at h
    cases hbe : buildEntries cm count_type hide techniques with
    | error err =>
      rw [hbe] at h
      simp at h
    | ok es =>
      rw [hbe] at h
      simp only [pure, Except.pure, Except.ok.injEq] at h
      intro t ht hid
      obtain ⟨e, he, hprop⟩ :=
        buildEntries_enabled cm count_type hide techniques es hbe t ht hid
      refine ⟨e, ?_, hprop⟩
      rw [← h]
      exact he

/-- C9: in every layer document built by `create_navigator_layer`, a
technique lacking an identifier is excluded from the `techniques` array
(every entry names a technique with an identifier, and the array's length
counts exactly the identified techniques), while the color thresholds are
computed from the full technique list, identifier-less techniques
included. -/
theorem layer_skips_idless (techniques : List AnnTechnique) (layer_name : String)
    (count_type : String) (hide : Bool) (layer : NavigatorLayer)
    (h : create_navigator_layer techniques layer_name count_type hide = .ok layer) :
    (∃ cm, calculate_color_thresholds techniques count_type = .ok cm ∧
       layer.gradientColors = cm.map Prod.snd) ∧
    layer.techniques.length =
      (techniques.filter (fun t => t.technique_id.getD "" != "")).length ∧
    ∀ e ∈ layer.techniques, e.techniqueID ≠ "" := by
  simp only [create_navigator_layer, bind, Except.bind] at h
  cases hcm : calculate_color_thresholds techniques count_type with
  | error err =>
    rw [hcm] at h
    simp at h
  | ok cm =>
    rw [hcm] at h
    simp only [] at h
    cases hbe : buildEntries cm count_type hide techniques with
    | error err =>
      rw [hbe] at h
      simp at h
    | ok es =>
      rw [hbe] at h
      simp only [pure, Except.pure, Except.ok.injEq] at h
      obtain ⟨hlen, hids⟩ := buildEntries_shape cm count_type hide techniques es hbe
      refine ⟨⟨cm, rfl, ?_⟩, ?_, ?_⟩
      · rw [← h]
      · rw [← h]
        exact hlen
      · intro e he
        rw [← h] at he
        exact hids e he

/-- Fallback layer for the witness extractors (never used on the successful
path). -/
def dfltLayer : NavigatorLayer :=
  { description := "", name := "", domain := "", attackVersion := "",
    navigatorVersion := "", layerVersion := "", gradientColors := [],
    gradientMinValue := 0, gradientMaxValue := 0, legendItems := [],
    techniques := [], showTacticRowBackground := false, tacticRowBackground := "",
    selectTechniquesAcrossTactics := false, selectSubtechniquesWithParent := false,
    selectVisibleTechniques := false, layoutLayout := "", layoutShowName := false,
    layoutShowID := false, layoutExpandedSubtechniques := false,
    hideDisabled := false }

/-- The identified technique of the C6 witness input (zero counts). -/
def c6T1002 : AnnTechnique :=
  { technique_id := some "T1002", name := "b", related_relationships := [],
    stats := { groups_count := some 0, mitigations_count := some 0,
               relationships_count := some 0, referenced_count := some 0 } }

/-- C6 witness input: one identified technique with zero counts and one
identifier-less technique. -/
def c6Techs : List AnnTechnique :=
  [c6T1002,
   { technique_id := none, name := "anon", related_relationships := [],
     stats := { groups_count := some 0, mitigations_count := some 0,
                relationships_count := some 0, referenced_count := some 0 } }]

/-- The layer built for the C6 witness. -/
def c6Res : Except PyErr NavigatorLayer :=
  create_navigator_layer c6Techs "Groups Heat Map" "groups" true

/-- Layer component of `c6Res`. -/
def c6Layer : NavigatorLayer :=
  match c6Res with
  | .ok l => l
  | .error _ => dfltLayer

/-- Witness for C6 on a concrete layer build with `hide_uncovered = true`. -/
theorem layer_enabled_iff_witness :
    ∃ e ∈ c6Layer.techniques, e.techniqueID = c6T1002.technique_id.getD "" ∧
      (e.enabled = true ↔ (true = false ∨ 0 < statsGet c6T1002.stats "groups")) :=
  layer_enabled_iff c6Techs "Groups Heat Map" "groups" true c6Layer (by rfl)
    c6T1002 (by decide) (by decide)

/-- C9 witness input: an identified and an identifier-less technique. -/
def c9Techs : List AnnTechnique :=
  [{ technique_id := none, name := "anon", related_relationships := [],
     stats := { groups_count := some 0, mitigations_count := some 0,
                relationships_count := some 0, referenced_count := some 0 } },
   { technique_id := some "T1055", name := "c", related_relationships := [],
     stats := { groups_count := some 0, mitigations_count := some 0,
                relationships_count := some 0, referenced_count := some 0 } }]

/-- The layer built for the C9 witness. -/
def c9Res : Except PyErr NavigatorLayer :=
  create_navigator_layer c9Techs "References Heat Map" "references" true

/-- Layer component of `c9Res`. -/
def c9Layer : NavigatorLayer :=
  match c9Res with
  | .ok l => l
  | .error _ => dfltLayer

/-- Witness for C9 on a concrete layer build containing an identifier-less
technique. -/
theorem layer_skips_idless_witness :
    (∃ cm, calculate_color_thresholds c9Techs "references" = .ok cm ∧
       c9Layer.gradientColors = cm.map Prod.snd) ∧
    c9Layer.techniques.length =
      (c9Techs.filter (fun t => t.technique_id.getD "" != "")).length ∧
    ∀ e ∈ c9Layer.techniques, e.techniqueID ≠ "" :=
  layer_skips_idless c9Techs "References Heat Map" "references" true c9Layer (by rfl)

/-! ## Color lookup monotonicity (C5) -/

/-- Position of a key in a key list (first occurrence; list length if the
key is absent). -/
def keyPos (k : ThKey) : List ThKey → ℕ
  | [] => 0
  | x :: xs => if x = k then 0 else keyPos k xs + 1

/-- Position of an integer in an integer list. -/
def posZ (k : ℤ) : List ℤ → ℕ
  | [] => 0
  | x :: xs => if x = k then 0 else posZ k xs + 1

/-- Well-formedness of a threshold map for the monotonicity statement: its
keys are numeric keys strictly increasing in map order, followed by the
catch-all entry, and 0 is among the numeric keys — the shape of every map
`calculate_color_thresholds` produces. -/
def WFColorMap (m : ColorMap) : Prop :=
  ∃ nums : List ℤ, m.map Prod.fst = nums.map ThKey.num ++ [ThKey.more] ∧
    nums.Sorted (· < ·) ∧ (0 : ℤ) ∈ nums

/-- Membership through one ascending insertion. -/
theorem mem_insertAscZ (x a : ℤ) : ∀ l, a ∈ insertAscZ x l ↔ a = x ∨ a ∈ l := by
  intro l
  induction l with
  | nil => simp [insertAscZ]
  | cons y ys ih =>
    unfold insertAscZ
    by_cases h : x ≤ y
    · simp [h]
    · simp [h, ih]
      tauto

/-- Inserting an element above everything appends it. -/
theorem insertAscZ_append_of_lt (x : ℤ) : ∀ (acc : List ℤ),
    (∀ y ∈ acc, y < x) → insertAscZ x acc = acc ++ [x] := by
  intro acc
  induction acc with
  | nil => intro _; rfl
  | cons y ys ih =>
    intro h
    have hyx : ¬ x ≤ y := by
      have := h y (by simp)
      omega
    unfold insertAscZ
    rw [if_neg hyx, ih (fun z hz => h z (by simp [hz]))]
    simp

/-- Folding ascending insertions of a sorted block above a sorted
accumulator concatenates them. -/
theorem foldl_insertAscZ_sorted : ∀ (l acc : List ℤ), acc.Sorted (· < ·) →
    l.Sorted (· < ·) → (∀ a ∈ acc, ∀ b ∈ l, a < b) →
    l.foldl (fun a x => insertAscZ x a) acc = acc ++ l := by
  intro l
  induction l with
  | nil => intro acc _ _ _; simp
  | cons x xs ih =>
    intro acc hacc hl hcross
    simp only [List.foldl_cons]
    have hins : insertAscZ x acc = acc ++ [x] :=
      insertAscZ_append_of_lt x acc (fun y hy => hcross y hy x (by simp))
    rw [hins]
    have hl' := List.sorted_cons.mp hl
    have hacc' : (acc ++ [x]).Sorted (· < ·) := by
      refine List.pairwise_append.mpr ⟨hacc, by simp, ?_⟩
      intro a ha b hb
      simp at hb
      rw [hb]
      exact hcross a ha x (by simp)
    have hcross' : ∀ a ∈ acc ++ [x], ∀ b ∈ xs, a < b := by
      intro a ha b hb
      rcases List.mem_append.mp ha with h1 | h2
      · exact hcross a h1 b (by simp [hb])
      · simp at h2
        rw [h2]
        exact hl'.1 b hb
    rw [ih (acc ++ [x]) hacc' hl'.2 hcross']
    simp

/-- Sorting a strictly increasing list is the identity. -/
theorem sortAscZ_sorted_id (l : List ℤ) (h : l.Sorted (· < ·)) :
    sortAscZ l = l := by
  simpa [sortAscZ] using
    foldl_insertAscZ_sorted l [] (by simp) h (by simp)

/-- The numeric-key scan of a well-shaped map keeps exactly the non-negative
breakpoints. -/
theorem numericKeys_of_shape (m : ColorMap) (nums : List ℤ)
    (h : m.map Prod.fst = nums.map ThKey.num ++ [ThKey.more]) :
    numericKeys m = nums.filter (fun n => decide (0 ≤ n)) := by
  have h1 : numericKeys m = (m.map Prod.fst).filterMap (fun k =>
      match k with
      | ThKey.num n => if 0 ≤ n then some n else none
      | ThKey.more => none) := by
    rw [List.filterMap_map]
    rfl
  rw [h1, h]
  clear h h1
  induction nums with
  | nil => rfl
  | cons x xs ih =>
    by_cases h0 : (0 : ℤ) ≤ x
    · simp [List.filterMap_cons, List.filter_cons, h0, ih]
    · simp [List.filterMap_cons, List.filter_cons, h0, ih]

/-- Any present key can be looked up. -/
theorem lookupColor_of_mem (m : ColorMap) (k : ThKey)
    (h : k ∈ m.map Prod.fst) : ∃ col, lookupColor m k = some col := by
  induction m with
  | nil => simp at h
  | cons p ps ih =>
    rw [List.map_cons] at h
    by_cases hp : p.1 = k
    · exact ⟨p.2, by simp [lookupColor, List.find?_cons, hp]⟩
    · have hk : k ∈ ps.map Prod.fst := by
        rcases List.mem_cons.mp h with h1 | h1
        · exact absurd h1.symm hp
        · exact h1
      obtain ⟨col, hcol⟩ := ih hk
      refine ⟨col, ?_⟩
      simpa [lookupColor, List.find?_cons, hp] using hcol

/-- The selection loop on any key list returns the last key of the `≤ count`
initial segment, falling back to the accumulator. -/
theorem scanSel_spec (c : ℤ) : ∀ (keys : List ℤ) (acc : Option ℤ),
    scanSel keys c acc =
      match (keys.takeWhile (fun k => decide (k ≤ c))).getLast? with
      | some x => some x
      | none => acc := by
  intro keys
  induction keys with
  | nil => intro acc; rfl
  | cons k ks ih =>
    intro acc
    by_cases hk : k ≤ c
    · have hkd : decide (k ≤ c) = true := decide_eq_true hk
      rw [show scanSel (k :: ks) c acc = scanSel ks c (some k) from by
        simp [scanSel, hk]]
      rw [ih (some k), List.takeWhile_cons, if_pos hkd]
      cases hg : (ks.takeWhile (fun k => decide (k ≤ c))).getLast? with
      | some x =>
        have hx : (k :: ks.takeWhile (fun k => decide (k ≤ c))).getLast? = some x := by
          cases htw : ks.takeWhile (fun k => decide (k ≤ c)) with
          | nil => rw [htw] at hg; simp at hg
          | cons y ys =>
            rw [htw] at hg
            rw [List.getLast?_cons_cons]
            exact hg
        rw [hx]
      | none =>
        have htw : ks.takeWhile (fun k => decide (k ≤ c)) = [] :=
          List.getLast?_eq_none_iff.mp hg
        rw [htw]
        rfl
    · rw [show scanSel (k :: ks) c acc = acc from by simp [scanSel, hk],
        List.takeWhile_cons, if_neg (by simp [hk])]
      rfl

/-- Weakening the predicate extends the initial segment. -/
theorem takeWhile_mono_suffix (p q : ℤ → Bool)
    (himp : ∀ x, p x = true → q x = true) :
    ∀ l : List ℤ, ∃ suf, l.takeWhile q = l.takeWhile p ++ suf := by
  intro l
  induction l with
  | nil => exact ⟨[], rfl⟩
  | cons x xs ih =>
    by_cases hp : p x = true
    · obtain ⟨suf, hsuf⟩ := ih
      refine ⟨suf, ?_⟩
      rw [List.takeWhile_cons, List.takeWhile_cons, if_pos hp, if_pos (himp x hp), hsuf]
      simp
    · have h2 : (x :: xs).takeWhile p = [] := by
        rw [List.takeWhile_cons, if_neg (by simp [hp])]
      exact ⟨(x :: xs).takeWhile q, by rw [h2]; simp⟩

/-- A last element of a strictly sorted list bounds every element. -/
theorem sorted_getLast?_max : ∀ (l : List ℤ), l.Sorted (· < ·) →
    ∀ x ∈ l, ∀ y, l.getLast? = some y → x ≤ y := by
  intro l
  induction l with
  | nil => intro _ x hx; simp at hx
  | cons a as ih =>
    intro hs x hx y hy
    have hs' := List.sorted_cons.mp hs
    cases has : as with
    | nil =>
      rw [has] at hy
      subst has
      simp at hy hx
      omega
    | cons b bs =>
      rw [has, List.getLast?_cons_cons] at hy
      have hy_mem : y ∈ as := by
        rw [has]
        have hymem : y ∈ (b :: bs).getLast? := by rw [hy]; rfl
        obtain ⟨hne, hyeq⟩ := List.mem_getLast?_eq_getLast hymem
        rw [hyeq]
        exact List.getLast_mem hne
      rcases List.mem_cons.mp hx with hxa | hxs
      · rw [hxa]
        exact le_of_lt (hs'.1 y hy_mem)
      · exact ih hs'.2 x hxs y (by rw [has]; exact hy)

/-- Members of an initial segment are members. -/
theorem mem_takeWhile_sub (p : ℤ → Bool) : ∀ (l : List ℤ) (x : ℤ),
    x ∈ l.takeWhile p → x ∈ l :=
  fun _ _ hx => (List.takeWhile_sublist p).mem hx

/-- A `getLast?` value is a member. -/
theorem getLast?_mem_list : ∀ (l : List ℤ) (y : ℤ), l.getLast? = some y → y ∈ l := by
  intro l y hy
  have hymem : y ∈ l.getLast? := by rw [hy]; rfl
  obtain ⟨hne, hyeq⟩ := List.mem_getLast?_eq_getLast hymem
  rw [hyeq]
  exact List.getLast_mem hne

/-- `keyPos` of a numeric key present among the breakpoints. -/
theorem keyPos_num_append (k : ℤ) : ∀ (nums : List ℤ) (rest : List ThKey),
    k ∈ nums →
    keyPos (ThKey.num k) (nums.map ThKey.num ++ rest) = posZ k nums := by
  intro nums
  induction nums with
  | nil => intro rest hk; simp at hk
  | cons x xs ih =>
    intro rest hk
    simp only [List.map_cons, List.cons_append, keyPos, posZ]
    by_cases hx : x = k
    · simp [hx]
    · have hne : ¬ ThKey.num x = ThKey.num k := by simp [hx]
      rw [if_neg hne, if_neg hx]
      have hk' : k ∈ xs := by
        rcases List.mem_cons.mp hk with h | h
        · exact absurd h.symm hx
        · exact h
      show keyPos (ThKey.num k) (List.map ThKey.num xs ++ rest) + 1 = posZ k xs + 1
      rw [ih rest hk']

/-- `keyPos` of the catch-all key, which sits after all breakpoints. -/
theorem keyPos_more_append : ∀ (nums : List ℤ),
    keyPos ThKey.more (nums.map ThKey.num ++ [ThKey.more]) = nums.length := by
  intro nums
  induction nums with
  | nil => rfl
  | cons x xs ih =>
    simp only [List.map_cons, List.cons_append, keyPos, List.length_cons]
    rw [if_neg (show ¬ ThKey.num x = ThKey.more by simp)]
    show keyPos ThKey.more (List.map ThKey.num xs ++ [ThKey.more]) + 1 = xs.length + 1
    rw [ih]

/-- A present integer's position is inside the list. -/
theorem posZ_lt_length (k : ℤ) : ∀ (nums : List ℤ), k ∈ nums →
    posZ k nums < nums.length := by
  intro nums
  induction nums with
  | nil => intro hk; simp at hk
  | cons x xs ih =>
    intro hk
    simp only [posZ, List.length_cons]
    by_cases hx : x = k
    · simp [hx]
    · rw [if_neg hx]
      have : k ∈ xs := by
        rcases List.mem_cons.mp hk with h | h
        · exact absurd h.symm hx
        · exact h
      have := ih this
      omega

/-- On a strictly increasing list, position respects the order. -/
theorem posZ_mono : ∀ (nums : List ℤ), nums.Sorted (· < ·) →
    ∀ (k1 k2 : ℤ), k1 ∈ nums → k2 ∈ nums → k1 ≤ k2 →
    posZ k1 nums ≤ posZ k2 nums := by
  intro nums
  induction nums with
  | nil => intro _ k1 k2 h1; simp at h1
  | cons x xs ih =>
    intro hs k1 k2 h1 h2 hle
    have hs' := List.sorted_cons.mp hs
    simp only [posZ]
    by_cases hx1 : x = k1
    · simp [hx1]
    · have hk1xs : k1 ∈ xs := by
        rcases List.mem_cons.mp h1 with h | h
        · exact absurd h.symm hx1
        · exact h
      by_cases hx2 : x = k2
      · exfalso
        have : k2 < k1 := by
          rw [← hx2]
          exact hs'.1 k1 hk1xs
        omega
      · have hk2xs : k2 ∈ xs := by
          rcases List.mem_cons.mp h2 with h | h
          · exact absurd h.symm hx2
          · exact h
        rw [if_neg hx1, if_neg hx2]
        have := ih hs'.2 k1 k2 hk1xs hk2xs hle
        omega

/-- A two-entry map with smallest numeric key 5: a count below every numeric
key selects the catch-all class. -/
def c5Map : ColorMap := [(.num 5, "#aaaaaa"), (.more, "#bbbbbb")]

/-- C5 counterexample: over the threshold map with keys 5 and "more"
(strictly increasing breakpoints, catch-all present), the counts 3 ≤ 5 select
classes in the wrong order: count 3 selects "more" (position 1 in map
order), count 5 selects key 5 (position 0) — `find_color_for_count` is not
monotone over every threshold map. -/
theorem find_color_not_monotone_cex :
    (0 : ℤ) ≤ 3 ∧ (3 : ℤ) ≤ 5 ∧
    selThKey c5Map 3 = .more ∧ selThKey c5Map 5 = .num 5 ∧
    find_color_for_count c5Map 3 = .ok "#bbbbbb" ∧
    find_color_for_count c5Map 5 = .ok "#aaaaaa" ∧
    keyPos (selThKey c5Map 5) (c5Map.map Prod.fst) <
      keyPos (selThKey c5Map 3) (c5Map.map Prod.fst) :=
  ⟨by decide, by decide, by rfl, by rfl, by rfl, by rfl, by decide⟩

/-- C5 (amended): for every threshold map whose numeric keys include 0 (true
of every map `calculate_color_thresholds` produces; without 0 a small count
selects the catch-all class and monotonicity fails, see the counterexample),
`find_color_for_count` is monotone non-decreasing in the count: the class
selected for a smaller count is never later in the map's order, and any
count strictly exceeding every numeric key resolves to the "more" color. -/
theorem find_color_monotone (m : ColorMap) (hwf : WFColorMap m) :
    (∀ c1 c2 : ℤ, 0 ≤ c1 → c1 ≤ c2 →
      keyPos (selThKey m c1) (m.map Prod.fst) ≤
        keyPos (selThKey m c2) (m.map Prod.fst)) ∧
    (∀ c : ℤ, (∀ k ∈ numericKeys m, k < c) →
      ∃ col, lookupColor m .more = some col ∧
        find_color_for_count m c = .ok col) := by
  obtain ⟨nums, hshape, hsorted, h0⟩ := hwf
  have hkeys_eq : numericKeys m = nums.filter (fun n => decide (0 ≤ n)) :=
    numericKeys_of_shape m nums hshape
  have hkeys_sorted : (numericKeys m).Sorted (· < ·) := by
    rw [hkeys_eq]
    exact hsorted.filter _
  have hsort_id : sortAscZ (numericKeys m) = numericKeys m :=
    sortAscZ_sorted_id _ hkeys_sorted
  have h0k : (0 : ℤ) ∈ numericKeys m := by
    rw [hkeys_eq]
    exact List.mem_filter.mpr ⟨h0, by simp⟩
  have hsel : ∀ c : ℤ, selThKey m c =
      match scanSel (numericKeys m) c none with
      | none => ThKey.more
      | some k =>
        match (numericKeys m).getLast? with
        | none => ThKey.more
        | some mx => if mx < c then ThKey.more else ThKey.num k := by
    intro c
    simp only [selThKey, hsort_id]
  have hnums_sub : ∀ x, x ∈ numericKeys m → x ∈ nums := by
    intro x hx
    rw [hkeys_eq] at hx
    exact List.filter_subset' nums hx
  constructor
  · intro c1 c2 hc1 hc12
    have hc2 : (0 : ℤ) ≤ c2 := le_trans hc1 hc12
    obtain ⟨h, rest, hkeys_cons, hh0⟩ : ∃ h rest,
        numericKeys m = h :: rest ∧ h ≤ 0 := by
      cases hck : numericKeys m with
      | nil => rw [hck] at h0k; simp at h0k
      | cons a as =>
        refine ⟨a, as, rfl, ?_⟩
        rw [hck] at h0k hkeys_sorted
        rcases List.mem_cons.mp h0k with ha | has
        · omega
        · exact le_of_lt ((List.sorted_cons.mp hkeys_sorted).1 0 has)
    have htw_ne : ∀ c : ℤ, 0 ≤ c →
        (numericKeys m).takeWhile (fun k => decide (k ≤ c)) ≠ [] := by
      intro c hc
      rw [hkeys_cons, List.takeWhile_cons]
      have hhc : h ≤ c := le_trans hh0 hc
      simp [hhc]
    have hscan : ∀ c : ℤ, 0 ≤ c → ∃ k, scanSel (numericKeys m) c none = some k ∧
        ((numericKeys m).takeWhile (fun k => decide (k ≤ c))).getLast? = some k := by
      intro c hc
      rw [scanSel_spec]
      cases hg : ((numericKeys m).takeWhile (fun k => decide (k ≤ c))).getLast? with
      | none => exact absurd (List.getLast?_eq_none_iff.mp hg) (htw_ne c hc)
      | some k => exact ⟨k, rfl, rfl⟩
    obtain ⟨k1, hs1, hg1⟩ := hscan c1 hc1
    obtain ⟨k2, hs2, hg2⟩ := hscan c2 hc2
    have hk1_keys : k1 ∈ numericKeys m :=
      mem_takeWhile_sub _ _ _ (getLast?_mem_list _ _ hg1)
    have hk2_keys : k2 ∈ numericKeys m :=
      mem_takeWhile_sub _ _ _ (getLast?_mem_list _ _ hg2)
    obtain ⟨suf, hsuf⟩ := takeWhile_mono_suffix
      (fun k => decide (k ≤ c1)) (fun k => decide (k ≤ c2))
      (fun x hx => by
        simp only [decide_eq_true_eq] at hx ⊢
        omega)
      (numericKeys m)
    have hk1_tw2 : k1 ∈ (numericKeys m).takeWhile (fun k => decide (k ≤ c2)) := by
      rw [hsuf]
      exact List.mem_append_left _ (getLast?_mem_list _ _ hg1)
    have htw2_sorted :
        ((numericKeys m).takeWhile (fun k => decide (k ≤ c2))).Sorted (· < ·) :=
      List.Pairwise.sublist (List.takeWhile_sublist _) hkeys_sorted
    have hk12 : k1 ≤ k2 := sorted_getLast?_max _ htw2_sorted k1 hk1_tw2 k2 hg2
    obtain ⟨mx, hmx⟩ : ∃ mx, (numericKeys m).getLast? = some mx := by
      cases hgl : (numericKeys m).getLast? with
      | none =>
        rw [List.getLast?_eq_none_iff.mp hgl] at hkeys_cons
        simp at hkeys_cons
      | some mx => exact ⟨mx, rfl⟩
    have hsel1 : selThKey m c1 = if mx < c1 then ThKey.more else ThKey.num k1 := by
      rw [hsel c1, hs1]
      simp only []
      rw [hmx]
    have hsel2 : selThKey m c2 = if mx < c2 then ThKey.more else ThKey.num k2 := by
      rw [hsel c2, hs2]
      simp only []
      rw [hmx]
    by_cases hm2 : mx < c2
    · by_cases hm1 : mx < c1
      · rw [hsel1, hsel2, if_pos hm1, if_pos hm2]
      · rw [hsel1, hsel2, if_neg hm1, if_pos hm2, hshape,
          keyPos_num_append k1 nums _ (hnums_sub k1 hk1_keys), keyPos_more_append]
        exact le_of_lt (posZ_lt_length k1 nums (hnums_sub k1 hk1_keys))
    · have hm1 : ¬ mx < c1 := by omega
      rw [hsel1, hsel2, if_neg hm1, if_neg hm2, hshape,
        keyPos_num_append k1 nums _ (hnums_sub k1 hk1_keys),
        keyPos_num_append k2 nums _ (hnums_sub k2 hk2_keys)]
      exact posZ_mono nums hsorted k1 k2
        (hnums_sub k1 hk1_keys) (hnums_sub k2 hk2_keys) hk12
  · intro c hc
    have hmore_mem : ThKey.more ∈ m.map Prod.fst := by
      rw [hshape]
      simp
    obtain ⟨col, hcol⟩ := lookupColor_of_mem m .more hmore_mem
    have hselc : selThKey m c = .more := by
      rw [hsel c]
      cases hsc : scanSel (numericKeys m) c none with
      | none => rfl
      | some k =>
        simp only []
        cases hgl : (numericKeys m).getLast? with
        | none => rfl
        | some mx =>
          have hmem : mx ∈ numericKeys m := getLast?_mem_list _ _ hgl
          simp [hc mx hmem]
    refine ⟨col, hcol, ?_⟩
    unfold find_color_for_count
    rw [hselc, hcol]

/-- A well-formed concrete map for the C5 witness. -/
def c5wMap : ColorMap :=
  [(.num 0, "#ffffff"), (.num 5, "#000066"), (.more, "#123456")]

/-- Witness for the amended C5 at the concrete map with keys 0, 5, "more"
and counts 3 ≤ 7. -/
theorem find_color_monotone_witness :
    keyPos (selThKey c5wMap 3) (c5wMap.map Prod.fst) ≤
      keyPos (selThKey c5wMap 7) (c5wMap.map Prod.fst) ∧
    ∃ col, lookupColor c5wMap .more = some col ∧
      find_color_for_count c5wMap 7 = .ok col :=
  ⟨(find_color_monotone c5wMap ⟨[0, 5], by decide, by decide, by decide⟩).1
      3 7 (by decide) (by decide),
   (find_color_monotone c5wMap ⟨[0, 5], by decide, by decide, by decide⟩).2
      7 (by decide)⟩

end Mitre
